import Mathlib

/-!
Shallow embedding of the zpass secret/derivation engine and vault/preference
data model (src/safe/crypto.rs, src/safe/preference.rs, src/safe/vault.rs,
src/safe/collection.rs), together with theorems settling the specification
claims about it.

Modelling conventions:
* Machine bytes (`u8`) are `Nat`; all byte values produced by the code stay
  below 256 but no theorem here depends on that bound.
* The cryptographic primitives (SHA3-256 and the AES-256 block permutation)
  are external building blocks of the repository, so they are abstract
  parameters: `hash : Bytes → Bytes` stands for `Sha3_256::digest` and
  `aes : Bytes → BlockCipher` for the keyed AES-256 block cipher.  The CBC
  block mode and PKCS7 padding used by `type Aes256Cbc = Cbc<Aes256, Pkcs7>`
  are modelled concretely, since the round-trip and error behaviour of
  `Cipher` depend on them.
* `rand::thread_rng` randomness in `Secret::random_secret` is modelled by
  passing the random byte sequence explicitly.
* Fallible Rust functions returning `Result` become `Except`; a Rust panic
  (`unwrap`) is modelled as a distinguished outcome, never as an error value.
-/

namespace ZPass

/-- Byte strings (`Vec<u8>` / `&[u8]`) as lists of naturals. -/
abbrev Bytes := List Nat

/-- UTF-8 encoding of one scalar value (standard 1- to 4-byte encoding). -/
def utf8Bytes (c : Char) : Bytes :=
  let n := c.toNat
  if n < 0x80 then [n]
  else if n < 0x800 then
    [0xC0 + n / 64, 0x80 + n % 64]
  else if n < 0x10000 then
    [0xE0 + n / 4096, 0x80 + n / 64 % 64, 0x80 + n % 64]
  else
    [0xF0 + n / 262144, 0x80 + n / 4096 % 64, 0x80 + n / 64 % 64, 0x80 + n % 64]

/-- Model of `str::as_bytes`: the UTF-8 bytes of a string. -/
def strBytes (s : String) : Bytes :=
  s.data.flatMap utf8Bytes

/-- Model of `CryptoError` from src/safe/crypto.rs.  The payloads (`BlockModeError`,
`InvalidKeyIvLength`) carry no data relevant to the claims and are dropped. -/
inductive CryptoError where
  | FailedToDecrypt
  | InvalidKeyIvLength
deriving DecidableEq, Repr

/-- An abstract 16-byte block cipher: the AES-256 primitive is an external
building block (crate `aes`), modelled by its encryption and decryption
directions. -/
structure BlockCipher where
  enc : Bytes → Bytes
  dec : Bytes → Bytes

/-- The assumptions the AES-256 block primitive satisfies: it preserves the
16-byte block length and decryption inverts encryption blockwise. -/
def BlockCipher.Good (bc : BlockCipher) : Prop :=
  (∀ b : Bytes, b.length = 16 → (bc.enc b).length = 16) ∧
  (∀ b : Bytes, b.length = 16 → bc.dec (bc.enc b) = b)

/-- Model of `IV_LENGTH_FOR_AES_256_IN_BYTES` from src/safe/crypto.rs. -/
def IV_LENGTH_FOR_AES_256_IN_BYTES : Nat := 16

/-- PKCS7 padding (crate `block_modes`, `Pkcs7::pad`): append `n` copies of
`n`, where `n = 16 - len % 16` (a full extra block when the input length is
already a multiple of the block size). -/
def pkcs7Pad (p : Bytes) : Bytes :=
  let n := 16 - p.length % 16
  p ++ List.replicate n n

/-- PKCS7 unpadding (`Pkcs7::unpad`): read the last byte `n`, require
`1 ≤ n ≤ len` and that the last `n` bytes all equal `n`, then strip them.
`none` models the padding error surfaced as `BlockModeError`. -/
def pkcs7Unpad (data : Bytes) : Option Bytes :=
  match data.getLast? with
  | none => none
  | some n =>
    if n = 0 ∨ data.length < n then none
    else if (data.drop (data.length - n)).all (fun v => v = n) then
      some (data.take (data.length - n))
    else none

/-- Split a byte string into consecutive 16-byte blocks (the block traversal
performed by the `block_modes` CBC implementation).  Structural recursion so
that the definition computes; the cipher only applies it to byte strings
whose length is a multiple of 16. -/
def chunks16 : Bytes → List Bytes
  | x1 :: x2 :: x3 :: x4 :: x5 :: x6 :: x7 :: x8 :: x9 :: x10 :: x11 :: x12 ::
      x13 :: x14 :: x15 :: x16 :: rest =>
    [x1, x2, x3, x4, x5, x6, x7, x8, x9, x10, x11, x12, x13, x14, x15, x16] ::
      chunks16 rest
  | [] => []
  | l => [l]

/-- Bytewise XOR of two blocks. -/
def zipXor (a b : Bytes) : Bytes :=
  List.zipWith (fun x y => Nat.xor x y) a b

/-- CBC encryption of a block sequence: each plaintext block is XORed with
the previous ciphertext block (initially the IV) before the block cipher is
applied. -/
def cbcEncBlocks (enc : Bytes → Bytes) (prev : Bytes) : List Bytes → List Bytes
  | [] => []
  | b :: bs =>
    let c := enc (zipXor b prev)
    c :: cbcEncBlocks enc c bs

/-- CBC decryption of a block sequence. -/
def cbcDecBlocks (dec : Bytes → Bytes) (prev : Bytes) : List Bytes → List Bytes
  | [] => []
  | c :: cs => zipXor (dec c) prev :: cbcDecBlocks dec c cs

/-- Model of `Cipher` from src/safe/crypto.rs: the constructed `Aes256Cbc` instance,
i.e. the keyed block primitive plus the (truncated) IV. -/
structure Cipher where
  bc : BlockCipher
  iv : Bytes

/-- Model of `Cipher::new`: expand key and IV through the hash, truncate the IV digest
to 16 bytes, and construct the block mode.  `Aes256Cbc::new_var` fails with
`InvalidKeyIvLength` when the key is not 32 bytes or the IV not 16 bytes. -/
def Cipher.new (hash : Bytes → Bytes) (aes : Bytes → BlockCipher)
    (key iv : String) : Except CryptoError Cipher :=
  let k := hash (strBytes key)
  let i := (hash (strBytes iv)).take IV_LENGTH_FOR_AES_256_IN_BYTES
  if k.length = 32 ∧ i.length = IV_LENGTH_FOR_AES_256_IN_BYTES then
    Except.ok { bc := aes k, iv := i }
  else
    Except.error CryptoError.InvalidKeyIvLength

/-- Model of `Cipher::encrypt` (`encrypt_vec`): PKCS7-pad, then CBC-encrypt. -/
def Cipher.encrypt (c : Cipher) (plaintext : Bytes) : Bytes :=
  (cbcEncBlocks c.bc.enc c.iv (chunks16 (pkcs7Pad plaintext))).flatten

/-- Model of `Cipher::decrypt` (`decrypt_vec`): the ciphertext length must be a
multiple of the block size, then CBC-decrypt and strip the padding; both
failure modes surface as `FailedToDecrypt` (`BlockModeError`). -/
def Cipher.decrypt (c : Cipher) (ciphertext : Bytes) : Except CryptoError Bytes :=
  if ciphertext.length % 16 = 0 then
    match pkcs7Unpad ((cbcDecBlocks c.bc.dec c.iv (chunks16 ciphertext)).flatten) with
    | some p => Except.ok p
    | none => Except.error CryptoError.FailedToDecrypt
  else
    Except.error CryptoError.FailedToDecrypt

/-- Model of `PasswordParam` from src/safe/crypto.rs. -/
structure PasswordParam where
  domain : String
  username : String
  length : Nat
  version : Nat
deriving DecidableEq, Repr

/-- Model of `Secret` from src/safe/crypto.rs. -/
structure Secret where
  encrypted_secret : Bytes
  iv : String
deriving DecidableEq, Repr

/-- Model of `Secret::new`: encrypt freshly generated random bytes under the cipher
built from the key and the IV seed, and store the ciphertext plus the seed.
The random bytes produced by `Secret::random_secret(length)` are passed
explicitly as `randomSecret`. -/
def Secret.new (hash : Bytes → Bytes) (aes : Bytes → BlockCipher)
    (key iv : String) (randomSecret : Bytes) : Except CryptoError Secret := do
  let c ← Cipher.new hash aes key iv
  Except.ok { encrypted_secret := c.encrypt randomSecret, iv := iv }

/-- Model of `Secret::to_ascii_range`: map each byte `b` to the character with code
`b % 92 + 33`. -/
def Secret.to_ascii_range (v : Bytes) : String :=
  String.mk (v.map (fun b => Char.ofNat (b % 92 + 33)))

/-- Model of `Secret::hash`: digest a byte sequence (`Sha3_256::digest`). -/
def Secret.hashBytes (hash : Bytes → Bytes) (data : Bytes) : Bytes :=
  hash data

/-- Model of `<Secret as PasswordGenerator>::get`: rebuild the cipher from the key and
the stored IV, decrypt the stored ciphertext, hash the plaintext and map the
digest into the printable ASCII range.  The `params` argument is accepted but
unused by the current code. -/
def Secret.get (hash : Bytes → Bytes) (aes : Bytes → BlockCipher)
    (s : Secret) (key : String) (_params : PasswordParam) :
    Except CryptoError String := do
  let c ← Cipher.new hash aes key s.iv
  let secret ← c.decrypt s.encrypted_secret
  Except.ok (Secret.to_ascii_range (Secret.hashBytes hash secret))

/-- Model of `PreferenceError` from src/safe/preference.rs. -/
inductive PreferenceError where
  | PreferenceExists
  | NoMatchingPreferenceFound
deriving DecidableEq, Repr

/-- Model of `Preference` from src/safe/preference.rs. -/
structure Preference where
  domain : String
  username : String
  length : Nat
  version : Nat
  default : Bool
deriving DecidableEq, Repr

/-- Model of `Preference::new`: version starts at 0 and the default flag at false. -/
def Preference.new (domain username : String) (length : Nat) : Preference :=
  { domain := domain, username := username, length := length,
    version := 0, default := false }

/-- Model of `Preferences` wraps `List<Preference>`, itself a wrapper around `Vec`;
`List::add` pushes at the end, `has`/`get` scan from the front. -/
abbrev Preferences := List Preference

/-- Model of `Preferences::has_default`: true when some preference with the default
flag set satisfies the predicate. -/
def Preferences.has_default (ps : Preferences) (f : Preference → Bool) : Bool :=
  ps.any (fun p => p.default && f p)

/-- Model of `Preferences::get_default`: the first default preference satisfying the
predicate. -/
def Preferences.get_default (ps : Preferences) (f : Preference → Bool) :
    Option Preference :=
  ps.find? (fun p => p.default && f p)

/-- Model of `Preferences::add`: fail when a preference with the same
(domain, username) pair exists; otherwise push the preference, its default
flag overridden to whether its domain has no default preference yet. -/
def Preferences.add (ps : Preferences) (preference : Preference) :
    Except PreferenceError Preferences :=
  if ps.any (fun p => p.domain == preference.domain &&
      p.username == preference.username) then
    Except.error PreferenceError.PreferenceExists
  else
    let d := !(Preferences.has_default ps (fun p => p.domain == preference.domain))
    Except.ok (ps ++ [{ preference with default := d }])

/-- Model of `Preferences::set_default`: fail when no preference matches the pair;
otherwise, across the whole domain group, set the default flag to whether the
username matches. -/
def Preferences.set_default (ps : Preferences) (domain username : String) :
    Except PreferenceError Preferences :=
  if !(ps.any (fun p => p.domain == domain && p.username == username)) then
    Except.error PreferenceError.NoMatchingPreferenceFound
  else
    Except.ok (ps.map (fun p =>
      if p.domain == domain then { p with default := p.username == username }
      else p))

/-- A mutation of a `Preferences` collection through its two public mutating
entry points. -/
inductive PrefOp where
  | add (p : Preference)
  | set_default (domain username : String)

/-- Apply one mutation to the collection held behind `&mut self`: on error
the Rust methods return before mutating, so the collection is unchanged. -/
def Preferences.applyOp (ps : Preferences) (op : PrefOp) : Preferences :=
  match op with
  | PrefOp.add p =>
    match Preferences.add ps p with
    | Except.ok ps2 => ps2
    | Except.error _ => ps
  | PrefOp.set_default d u =>
    match Preferences.set_default ps d u with
    | Except.ok ps2 => ps2
    | Except.error _ => ps

/-- Run a sequence of mutations starting from the empty collection
(`Preferences::new`). -/
def Preferences.run (ops : List PrefOp) : Preferences :=
  ops.foldl Preferences.applyOp []

/-- Model of `VaultError` from src/safe/vault.rs (error payloads dropped where they
carry no data relevant to the claims). -/
inductive VaultError where
  | SecretError (e : CryptoError)
  | PreferenceError (e : PreferenceError)
  | SerializationError
  | IOError
  | NoMatchingPreference
  | VaultAlreadyExists
deriving DecidableEq, Repr

/-- Model of `Vault<S>` from src/safe/vault.rs. -/
structure Vault (S : Type) where
  name : String
  secret : S
  preferences : Preferences
  default : Bool
deriving DecidableEq, Repr

/-- Model of `Vault::new`: fresh empty preference collection. -/
def Vault.new {S : Type} (name : String) (secret : S) (default : Bool) :
    Vault S :=
  { name := name, secret := secret, preferences := [], default := default }

/-- Model of `Vault::get_password`, specialised to the one `PasswordGenerator`
implementation (`Secret`): resolve the preference (explicit username, or the
domain default), fill the unspecified parameters from it, and derive the
password through `Secret::get`. -/
def Vault.get_password (hash : Bytes → Bytes) (aes : Bytes → BlockCipher)
    (v : Vault Secret) (domain key : String) (username : Option String)
    (length version : Option Nat) : Except VaultError String :=
  let pref? : Option Preference := match username with
    | some u => v.preferences.find? (fun p => p.domain == domain && p.username == u)
    | none => Preferences.get_default v.preferences (fun p => p.domain == domain)
  match pref? with
  | none => Except.error VaultError.NoMatchingPreference
  | some preference =>
    let username := username.getD preference.username
    let length := length.getD preference.length
    let version := version.getD preference.version
    match Secret.get hash aes v.secret key
        { domain := domain, username := username,
          length := length, version := version } with
    | Except.ok password => Except.ok password
    | Except.error e => Except.error (VaultError.SecretError e)

/-- Model of `Vaults::add`: fail when the name collides with an existing vault;
otherwise push a new vault, default iff the collection was empty. -/
def Vaults.add {S : Type} (vs : List (Vault S)) (name : String) (secret : S) :
    Except VaultError (List (Vault S)) :=
  if vs.any (fun v => v.name == name) then
    Except.error VaultError.VaultAlreadyExists
  else
    Except.ok (vs ++ [Vault.new name secret vs.isEmpty])

/-- Apply one `Vaults::add` call to the collection held behind `&mut self`:
on error the method returns before mutating. -/
def Vaults.applyAdd {S : Type} (vs : List (Vault S)) (op : String × S) :
    List (Vault S) :=
  match Vaults.add vs op.1 op.2 with
  | Except.ok vs2 => vs2
  | Except.error _ => vs

/-- Run a sequence of `Vaults::add` calls starting from the empty
collection. -/
def Vaults.run {S : Type} (ops : List (String × S)) : List (Vault S) :=
  ops.foldl Vaults.applyAdd []

/-- The observable outcome of `Vaults::new`: a loaded collection, a typed
error in the returned `Result`, or a panic. -/
inductive LoadOutcome (S : Type) where
  | ok (vaults : List (Vault S))
  | error (e : VaultError)
  | panic
deriving DecidableEq, Repr

/-- The `contents.into_iter().map(|c| Vault::deserialize(c).unwrap()).collect()`
pipeline inside `Vaults::new`: `unwrap` panics at the first file content that
fails to deserialize (`none` models the panic). -/
def mapUnwrap {S : Type} (deser : String → Except Unit (Vault S)) :
    List String → Option (List (Vault S))
  | [] => some []
  | c :: cs =>
    match deser c with
    | Except.ok v => (mapUnwrap deser cs).map (fun vs => v :: vs)
    | Except.error _ => none

/-- Model of `Vaults::new`: an absent storage root yields the empty collection; an
existing root yields the vaults deserialized from the directory's file
contents, with `unwrap` panicking on the first malformed file.
`serde_json::from_slice` is the external deserializer `deser`; I/O failures
of `get_dir_contents` are outside the states the claims quantify over. -/
def Vaults.new {S : Type} (deser : String → Except Unit (Vault S))
    (rootExists : Bool) (contents : List String) : LoadOutcome S :=
  if rootExists = false then LoadOutcome.ok []
  else
    match mapUnwrap deser contents with
    | some vaults => LoadOutcome.ok vaults
    | none => LoadOutcome.panic

/-! Helper lemmas about the cipher pipeline. -/

theorem char_toNat_ofNat (n : Nat) (h : n < 55296) : (Char.ofNat n).toNat = n := by
  unfold Char.ofNat
  rw [dif_pos (Or.inl h)]
  rfl

theorem length_pkcs7Pad_mod (p : Bytes) : (pkcs7Pad p).length % 16 = 0 := by
  simp only [pkcs7Pad, List.length_append, List.length_replicate]
  omega

theorem pkcs7Unpad_pkcs7Pad (p : Bytes) : pkcs7Unpad (pkcs7Pad p) = some p := by
  obtain ⟨m, hm⟩ : ∃ m, 16 - p.length % 16 = m + 1 := ⟨16 - p.length % 16 - 1, by omega⟩
  have hpad : pkcs7Pad p = p ++ List.replicate (m + 1) (m + 1) := by
    simp only [pkcs7Pad, hm]
  have hlast : (pkcs7Pad p).getLast? = some (m + 1) := by
    rw [hpad, List.replicate_succ', ← List.append_assoc]
    exact List.getLast?_concat _
  have hlen : (pkcs7Pad p).length = p.length + (m + 1) := by
    rw [hpad]; simp
  have hdrop : (pkcs7Pad p).drop ((pkcs7Pad p).length - (m + 1)) =
      List.replicate (m + 1) (m + 1) := by
    rw [hlen, hpad, Nat.add_sub_cancel]
    exact List.drop_left _ _
  have htake : (pkcs7Pad p).take ((pkcs7Pad p).length - (m + 1)) = p := by
    rw [hlen, hpad, Nat.add_sub_cancel]
    exact List.take_left _ _
  unfold pkcs7Unpad
  rw [hlast]
  dsimp only
  rw [if_neg (by omega), hdrop, htake, if_pos]
  simp [List.all_eq_true, List.mem_replicate]

theorem chunks16_step (l : Bytes) (h16 : 16 ≤ l.length) :
    chunks16 l = l.take 16 :: chunks16 (l.drop 16) := by
  obtain _ | ⟨x1, l⟩ := l
  · simp at h16
  obtain _ | ⟨x2, l⟩ := l
  · simp at h16
  obtain _ | ⟨x3, l⟩ := l
  · simp at h16
  obtain _ | ⟨x4, l⟩ := l
  · simp at h16
  obtain _ | ⟨x5, l⟩ := l
  · simp at h16
  obtain _ | ⟨x6, l⟩ := l
  · simp at h16
  obtain _ | ⟨x7, l⟩ := l
  · simp at h16
  obtain _ | ⟨x8, l⟩ := l
  · simp at h16
  obtain _ | ⟨x9, l⟩ := l
  · simp at h16
  obtain _ | ⟨x10, l⟩ := l
  · simp at h16
  obtain _ | ⟨x11, l⟩ := l
  · simp at h16
  obtain _ | ⟨x12, l⟩ := l
  · simp at h16
  obtain _ | ⟨x13, l⟩ := l
  · simp at h16
  obtain _ | ⟨x14, l⟩ := l
  · simp at h16
  obtain _ | ⟨x15, l⟩ := l
  · simp at h16
  obtain _ | ⟨x16, l⟩ := l
  · simp at h16
  rfl

theorem flatten_chunks16_bounded (n : Nat) : ∀ l : Bytes, l.length ≤ n →
    l.length % 16 = 0 → (chunks16 l).flatten = l := by
  induction n with
  | zero =>
    intro l hl _
    have hnil : l = [] := List.eq_nil_of_length_eq_zero (by omega)
    subst hnil
    rfl
  | succ n ih =>
    intro l hl hmod
    by_cases hnil : l = []
    · subst hnil
      rfl
    · have hpos : 0 < l.length := List.length_pos.mpr hnil
      have h16 : 16 ≤ l.length := by omega
      rw [chunks16_step l h16]
      simp only [List.flatten_cons]
      rw [ih (l.drop 16) (by rw [List.length_drop]; omega)
        (by rw [List.length_drop]; omega)]
      exact List.take_append_drop 16 l

theorem flatten_chunks16 (l : Bytes) (hmod : l.length % 16 = 0) :
    (chunks16 l).flatten = l :=
  flatten_chunks16_bounded l.length l le_rfl hmod

theorem chunks16_length_blocks_bounded (n : Nat) : ∀ l : Bytes, l.length ≤ n →
    l.length % 16 = 0 → ∀ b ∈ chunks16 l, b.length = 16 := by
  induction n with
  | zero =>
    intro l hl _ b hb
    have hnil : l = [] := List.eq_nil_of_length_eq_zero (by omega)
    subst hnil
    simp [chunks16] at hb
  | succ n ih =>
    intro l hl hmod b hb
    by_cases hnil : l = []
    · subst hnil
      simp [chunks16] at hb
    · have hpos : 0 < l.length := List.length_pos.mpr hnil
      have h16 : 16 ≤ l.length := by omega
      rw [chunks16_step l h16] at hb
      rcases List.mem_cons.mp hb with h | h
      · rw [h, List.length_take]
        omega
      · exact ih (l.drop 16) (by rw [List.length_drop]; omega)
          (by rw [List.length_drop]; omega) b h

theorem chunks16_length_blocks (l : Bytes) (hmod : l.length % 16 = 0) :
    ∀ b ∈ chunks16 l, b.length = 16 :=
  chunks16_length_blocks_bounded l.length l le_rfl hmod

theorem chunks16_flatten_blocks (bs : List Bytes)
    (h : ∀ b ∈ bs, b.length = 16) : chunks16 bs.flatten = bs := by
  induction bs with
  | nil => rfl
  | cons b bs ih =>
    have hb : b.length = 16 := h b (List.mem_cons_self _ _)
    have hbs : ∀ x ∈ bs, x.length = 16 := fun x hx => h x (List.mem_cons_of_mem _ hx)
    simp only [List.flatten_cons]
    rw [chunks16_step _ (by rw [List.length_append, hb]; omega)]
    have h1 : (b ++ bs.flatten).take 16 = b := by
      rw [← hb]; exact List.take_left _ _
    have h2 : (b ++ bs.flatten).drop 16 = bs.flatten := by
      rw [← hb]; exact List.drop_left _ _
    rw [h1, h2, ih hbs]

theorem flatten_length_mod (bs : List Bytes)
    (h : ∀ b ∈ bs, b.length = 16) : bs.flatten.length % 16 = 0 := by
  induction bs with
  | nil => simp
  | cons b bs ih =>
    have hb : b.length = 16 := h b (List.mem_cons_self _ _)
    have := ih (fun x hx => h x (List.mem_cons_of_mem _ hx))
    simp only [List.flatten_cons, List.length_append, hb]
    omega

theorem length_zipXor (a b : Bytes) :
    (zipXor a b).length = min a.length b.length := by
  simp [zipXor]

theorem zipXor_zipXor (a b : Bytes) (h : a.length = b.length) :
    zipXor (zipXor a b) b = a := by
  induction a generalizing b with
  | nil => simp [zipXor]
  | cons x xs ih =>
    cases b with
    | nil => simp at h
    | cons y ys =>
      simp only [zipXor, List.zipWith_cons_cons]
      have h2 : xs.length = ys.length := by
        simp only [List.length_cons] at h; omega
      rw [show Nat.xor (Nat.xor x y) y = x from Nat.xor_cancel_right y x]
      have := ih ys h2
      simp only [zipXor] at this
      rw [this]

theorem cbcEncBlocks_mem_length (enc : Bytes → Bytes)
    (hl : ∀ b, b.length = 16 → (enc b).length = 16) :
    ∀ (bs : List Bytes) (prev : Bytes), prev.length = 16 →
      (∀ b ∈ bs, b.length = 16) →
      ∀ c ∈ cbcEncBlocks enc prev bs, c.length = 16 := by
  intro bs
  induction bs with
  | nil => intro prev _ _ c hc; simp [cbcEncBlocks] at hc
  | cons b bs ih =>
    intro prev hprev hbs c hc
    have hc1 : (enc (zipXor b prev)).length = 16 := by
      apply hl
      rw [length_zipXor, hbs b (List.mem_cons_self _ _), hprev]
      exact Nat.min_self 16
    simp only [cbcEncBlocks] at hc
    rcases List.mem_cons.mp hc with h | h
    · rw [h]; exact hc1
    · exact ih _ hc1 (fun x hx => hbs x (List.mem_cons_of_mem _ hx)) c h

theorem cbcDecBlocks_cbcEncBlocks (bc : BlockCipher) (hgood : bc.Good) :
    ∀ (bs : List Bytes) (prev : Bytes), prev.length = 16 →
      (∀ b ∈ bs, b.length = 16) →
      cbcDecBlocks bc.dec prev (cbcEncBlocks bc.enc prev bs) = bs := by
  intro bs
  induction bs with
  | nil => intro prev _ _; simp [cbcEncBlocks, cbcDecBlocks]
  | cons b bs ih =>
    intro prev hprev hbs
    have hb : b.length = 16 := hbs b (List.mem_cons_self _ _)
    have hxlen : (zipXor b prev).length = 16 := by
      rw [length_zipXor, hb, hprev]
      exact Nat.min_self 16
    simp only [cbcEncBlocks, cbcDecBlocks]
    rw [hgood.2 _ hxlen, zipXor_zipXor _ _ (by rw [hb, hprev])]
    rw [ih _ (hgood.1 _ hxlen) (fun x hx => hbs x (List.mem_cons_of_mem _ hx))]

/-- Round-trip of a constructed cipher: decrypting an encryption of any byte
sequence under the same cipher succeeds and returns it. -/
theorem Cipher.decrypt_encrypt (c : Cipher) (hgood : c.bc.Good)
    (hiv : c.iv.length = 16) (p : Bytes) :
    c.decrypt (c.encrypt p) = Except.ok p := by
  have hblocks : ∀ b ∈ chunks16 (pkcs7Pad p), b.length = 16 :=
    chunks16_length_blocks _ (length_pkcs7Pad_mod p)
  have hctblocks :
      ∀ b ∈ cbcEncBlocks c.bc.enc c.iv (chunks16 (pkcs7Pad p)), b.length = 16 :=
    cbcEncBlocks_mem_length _ hgood.1 _ _ hiv hblocks
  unfold Cipher.encrypt Cipher.decrypt
  rw [if_pos (flatten_length_mod _ hctblocks),
    chunks16_flatten_blocks _ hctblocks,
    cbcDecBlocks_cbcEncBlocks c.bc hgood _ _ hiv hblocks,
    flatten_chunks16 _ (length_pkcs7Pad_mod p), pkcs7Unpad_pkcs7Pad]

/-- Lemma: `Cipher::new` with a 32-byte digest always takes the first branch. -/
theorem cipherNew_eq (hash : Bytes → Bytes) (aes : Bytes → BlockCipher)
    (hdig : ∀ x, (hash x).length = 32) (key iv : String) :
    Cipher.new hash aes key iv =
      Except.ok { bc := aes (hash (strBytes key)),
                  iv := (hash (strBytes iv)).take 16 } := by
  simp only [Cipher.new, IV_LENGTH_FOR_AES_256_IN_BYTES]
  rw [if_pos]
  exact ⟨hdig _, by rw [List.length_take, hdig _]; decide⟩

theorem cipherNew_iv_length (hash : Bytes → Bytes)
    (hdig : ∀ x, (hash x).length = 32) (iv : String) :
    ((hash (strBytes iv)).take 16).length = 16 := by
  rw [List.length_take, hdig _]
  decide

/-- Lemma: `Cipher::decrypt` has a single error value. -/
theorem cipher_decrypt_error (c : Cipher) (ct : Bytes) (e : CryptoError)
    (h : c.decrypt ct = Except.error e) : e = CryptoError.FailedToDecrypt := by
  unfold Cipher.decrypt at h
  by_cases hmod : ct.length % 16 = 0
  · rw [if_pos hmod] at h
    cases hu : pkcs7Unpad ((cbcDecBlocks c.bc.dec c.iv (chunks16 ct)).flatten) with
    | some p => rw [hu] at h; exact absurd h (by simp)
    | none =>
      rw [hu] at h
      injection h with h2
      exact h2.symm
  · rw [if_neg hmod] at h
    injection h with h2
    exact h2.symm

/-- Concrete stand-ins for the external primitives, used by the witnesses:
a constant 32-byte digest and the identity block permutation. -/
def hash0 : Bytes → Bytes := fun _ => List.replicate 32 0

def bc0 : BlockCipher := { enc := fun b => b, dec := fun b => b }

def aes0 : Bytes → BlockCipher := fun _ => bc0

theorem hash0_digest : ∀ x, (hash0 x).length = 32 := fun _ => rfl

theorem aes0_good : ∀ k, (aes0 k).Good :=
  fun _ => ⟨fun _ h => h, fun _ _ => rfl⟩

/-- The composite `Cipher::new(k, i)?.encrypt(p)` used by callers
(`Secret::new` and the crypto test). -/
def encryptWith (hash : Bytes → Bytes) (aes : Bytes → BlockCipher)
    (key iv : String) (p : Bytes) : Except CryptoError Bytes :=
  (Cipher.new hash aes key iv).map (fun c => c.encrypt p)

/-- The composite `Cipher::new(k, i)?.decrypt(ct)` used by callers
(`Secret::get` and the crypto test). -/
def decryptWith (hash : Bytes → Bytes) (aes : Bytes → BlockCipher)
    (key iv : String) (ct : Bytes) : Except CryptoError Bytes :=
  (Cipher.new hash aes key iv).bind (fun c => c.decrypt ct)

/-- C8: for all key strings `k`, IV strings `i` and plaintext byte sequences
`p`, encrypting `p` with a cipher built from `(k, i)` and decrypting the
result with a cipher built from the same `(k, i)` succeeds and returns `p`;
the digest-length and blockwise-inverse facts about the external SHA3-256
and AES-256 primitives are the stated hypotheses. -/
theorem cipher_roundtrip (hash : Bytes → Bytes) (aes : Bytes → BlockCipher)
    (hdig : ∀ x, (hash x).length = 32) (hgood : ∀ k, (aes k).Good)
    (key iv : String) (p : Bytes) :
    (encryptWith hash aes key iv p).bind (decryptWith hash aes key iv) =
      Except.ok p := by
  unfold encryptWith decryptWith
  rw [cipherNew_eq hash aes hdig key iv]
  exact Cipher.decrypt_encrypt _ (hgood _) (cipherNew_iv_length hash hdig iv) p

/-- C8 witness: the round-trip at concrete primitives, key, IV and
plaintext. -/
theorem cipher_roundtrip_witness :
    (encryptWith hash0 aes0 "EXAMPLE_KEY" "EXAMPLE_IV" [83, 69, 67]).bind
        (decryptWith hash0 aes0 "EXAMPLE_KEY" "EXAMPLE_IV") =
      Except.ok [83, 69, 67] :=
  cipher_roundtrip hash0 aes0 hash0_digest aes0_good "EXAMPLE_KEY" "EXAMPLE_IV"
    [83, 69, 67]

/-- Lemma: `Secret::get` viewed after the (always successful, by `cipherNew_eq`)
cipher construction: its result is the mapped decryption result. -/
theorem secret_get_eq (hash : Bytes → Bytes) (aes : Bytes → BlockCipher)
    (s : Secret) (key : String) (params : PasswordParam) (c : Cipher)
    (hc : Cipher.new hash aes key s.iv = Except.ok c) :
    Secret.get hash aes s key params =
      (c.decrypt s.encrypted_secret).map
        (fun secret => Secret.to_ascii_range (Secret.hashBytes hash secret)) := by
  unfold Secret.get
  rw [hc]
  show (c.decrypt s.encrypted_secret >>= fun secret =>
      Except.ok (Secret.to_ascii_range (Secret.hashBytes hash secret))) = _
  cases c.decrypt s.encrypted_secret with
  | ok v => rfl
  | error e2 => rfl

theorem except_map_error {A B : Type} (X : Except CryptoError A) (g : A → B)
    (e : CryptoError) (h : X.map g = Except.error e) : X = Except.error e := by
  cases X with
  | ok v => exact absurd h (by simp [Except.map])
  | error e2 =>
    have h2 : e2 = e := by
      have h3 : Except.error (α := B) e2 = Except.error e := h
      injection h3
    rw [h2]

/-- C9: with the fixed 32-byte digest, `Cipher::new` always succeeds (the
`InvalidKeyIvLength` branch is unreachable), hence `Secret::new` always
succeeds, and `Secret::get` can only fail with the decryption error. -/
theorem cipher_new_never_fails (hash : Bytes → Bytes) (aes : Bytes → BlockCipher)
    (hdig : ∀ x, (hash x).length = 32) (key iv k2 : String) (rnd : Bytes)
    (s : Secret) (params : PasswordParam) (e : CryptoError) :
    (∃ c, Cipher.new hash aes key iv = Except.ok c) ∧
    (∃ s2, Secret.new hash aes key iv rnd = Except.ok s2) ∧
    (Secret.get hash aes s k2 params = Except.error e →
      e = CryptoError.FailedToDecrypt) := by
  have hs : Secret.new hash aes key iv rnd =
      Except.ok (Secret.mk
        (Cipher.encrypt
          (Cipher.mk (aes (hash (strBytes key))) ((hash (strBytes iv)).take 16))
          rnd)
        iv) := by
    unfold Secret.new
    rw [cipherNew_eq hash aes hdig key iv]
    rfl
  refine ⟨⟨_, cipherNew_eq hash aes hdig key iv⟩, ⟨_, hs⟩, ?_⟩
  intro herr
  rw [secret_get_eq hash aes s k2 params _
    (cipherNew_eq hash aes hdig k2 s.iv)] at herr
  exact cipher_decrypt_error _ _ _ (except_map_error _ _ _ herr)

/-- C9 witness: concrete primitives; the error case is exercised on a stored
ciphertext whose length is not a block multiple. -/
theorem cipher_new_never_fails_witness :
    (∃ c, Cipher.new hash0 aes0 "k" "i" = Except.ok c) ∧
    (∃ s2, Secret.new hash0 aes0 "k" "i" [1, 2, 3] = Except.ok s2) ∧
    CryptoError.FailedToDecrypt = CryptoError.FailedToDecrypt := by
  have h := cipher_new_never_fails hash0 aes0 hash0_digest "k" "i" "k" [1, 2, 3]
    (Secret.mk [0] "i")
    { domain := "d", username := "u", length := 8, version := 0 }
    CryptoError.FailedToDecrypt
  exact ⟨h.1, h.2.1, h.2.2 (by rfl)⟩

/-- C2: whenever the cipher rebuilt from the key and the stored IV decrypts
the stored ciphertext to plaintext `p`, `Secret::get` returns the string
whose i-th character has code `33 + (b mod 92)` for `b` the i-th byte of the
digest of `p` — decrypt, then hash, then map into the printable range. -/
theorem secret_get_derivation (hash : Bytes → Bytes) (aes : Bytes → BlockCipher)
    (s : Secret) (key : String) (params : PasswordParam) (c : Cipher) (p : Bytes)
    (hc : Cipher.new hash aes key s.iv = Except.ok c)
    (hp : c.decrypt s.encrypted_secret = Except.ok p) :
    Secret.get hash aes s key params =
      Except.ok (String.mk ((hash p).map (fun b => Char.ofNat (33 + b % 92)))) := by
  rw [secret_get_eq hash aes s key params c hc, hp]
  show Except.ok (Secret.to_ascii_range (Secret.hashBytes hash p)) = _
  unfold Secret.to_ascii_range Secret.hashBytes
  have harr : (fun b => Char.ofNat (b % 92 + 33)) =
      (fun b : Nat => Char.ofNat (33 + b % 92)) := by
    funext b
    rw [Nat.add_comm]
  rw [harr]

/-- C2 witness: a secret whose ciphertext is a concrete encryption, under the
concrete primitives. -/
theorem secret_get_derivation_witness :
    Secret.get hash0 aes0
        (Secret.mk (Cipher.encrypt (Cipher.mk bc0 (List.replicate 16 0)) [1, 2, 3]) "i")
        "k" { domain := "d", username := "u", length := 8, version := 0 } =
      Except.ok (String.mk ((hash0 [1, 2, 3]).map
        (fun b => Char.ofNat (33 + b % 92)))) :=
  secret_get_derivation hash0 aes0 _ "k" _
    (Cipher.mk bc0 (List.replicate 16 0)) [1, 2, 3] (by rfl)
    (Cipher.decrypt_encrypt _ (aes0_good []) (by rfl) _)

/-- Lemma: if `Vault::get_password` with an explicit username returns a password,
that password came from `Secret::get` at some parameter record. -/
theorem get_password_ok_secret (hash : Bytes → Bytes) (aes : Bytes → BlockCipher)
    (v : Vault Secret) (domain key u : String) (pw : String)
    (h : Vault.get_password hash aes v domain key (some u) none none =
      Except.ok pw) :
    ∃ params, Secret.get hash aes v.secret key params = Except.ok pw := by
  unfold Vault.get_password at h
  dsimp only at h
  cases hf : v.preferences.find? (fun p => p.domain == domain && p.username == u) with
  | none =>
    rw [hf] at h
    simp at h
  | some pref =>
    rw [hf] at h
    dsimp only at h
    split at h
    · rename_i pw2 heq
      injection h with h2
      subst h2
      exact ⟨_, heq⟩
    · rename_i e heq
      exact absurd h (by simp)

/-- C3: `Secret::get` ignores the `PasswordParam` record entirely, so in
particular two different (domain, username) pairs resolved through the same
vault and key derive the same password. -/
theorem secret_get_ignores_params (hash : Bytes → Bytes) (aes : Bytes → BlockCipher)
    (s : Secret) (key : String) (p1 p2 : PasswordParam) (v : Vault Secret)
    (d1 u1 d2 u2 : String) (pw1 pw2 : String) :
    Secret.get hash aes s key p1 = Secret.get hash aes s key p2 ∧
    (Vault.get_password hash aes v d1 key (some u1) none none = Except.ok pw1 →
      Vault.get_password hash aes v d2 key (some u2) none none = Except.ok pw2 →
      pw1 = pw2) := by
  refine ⟨rfl, ?_⟩
  intro h1 h2
  obtain ⟨pa, ha⟩ := get_password_ok_secret hash aes v d1 key u1 pw1 h1
  obtain ⟨pb, hb⟩ := get_password_ok_secret hash aes v d2 key u2 pw2 h2
  have hab : Secret.get hash aes v.secret key pa =
      Secret.get hash aes v.secret key pb := rfl
  rw [ha, hb] at hab
  injection hab

/-- Concrete vault for the C3 witness: one secret, two preferences. -/
def secretW : Secret :=
  Secret.mk (Cipher.encrypt (Cipher.mk bc0 (List.replicate 16 0)) [1, 2, 3]) "i"

def prefsW : Preferences :=
  Preferences.run [PrefOp.add (Preference.new "d1" "u1" 8),
    PrefOp.add (Preference.new "d2" "u2" 9)]

def vaultW : Vault Secret :=
  { name := "w", secret := secretW, preferences := prefsW, default := true }

def pwW : String := Secret.to_ascii_range (hash0 [1, 2, 3])

/-- C3 witness: at the concrete vault, both preference resolutions succeed
and yield the same password. -/
theorem secret_get_ignores_params_witness :
    (Secret.get hash0 aes0 secretW "k"
        { domain := "a", username := "b", length := 1, version := 0 } =
      Secret.get hash0 aes0 secretW "k"
        { domain := "c", username := "d", length := 2, version := 3 }) ∧
    pwW = pwW :=
  have h := secret_get_ignores_params hash0 aes0 secretW "k"
    { domain := "a", username := "b", length := 1, version := 0 }
    { domain := "c", username := "d", length := 2, version := 3 }
    vaultW "d1" "u1" "d2" "u2" pwW pwW
  ⟨h.1, h.2 (by rfl) (by rfl)⟩

/-- The preference collection of the C1 scenario: the single added
preference (domain example.com, username alice, length 16) becomes the
domain default. -/
def c1Prefs : Preferences :=
  Preferences.run [PrefOp.add (Preference.new "example.com" "alice" 16)]

/-- Lemma: `Vault::get_password` without a username, when the domain default
preference resolves, reduces to `Secret::get` at the resolved parameters. -/
theorem get_password_default_eq (hash : Bytes → Bytes) (aes : Bytes → BlockCipher)
    (v : Vault Secret) (domain key : String) (pref : Preference)
    (hfind : Preferences.get_default v.preferences
      (fun p => p.domain == domain) = some pref) :
    Vault.get_password hash aes v domain key none none none =
      (match Secret.get hash aes v.secret key
          { domain := domain, username := pref.username,
            length := pref.length, version := pref.version } with
        | Except.ok password => Except.ok password
        | Except.error e => Except.error (VaultError.SecretError e)) := by
  unfold Vault.get_password
  dsimp only
  rw [hfind]
  rfl

/-- C1 (amended): in the scenario — vault created with key K1 and IV seed
equal to the vault name, preference (example.com, alice, 16) added,
`get_password("example.com", "K1")` called with no username — the call
succeeds, the derivation being pure both calls denote the same string, the
string has 32 characters (the SHA3-256 digest length; the preference length
16 is not applied), and every character code lies in the 92-value printable
range starting at 33. -/
theorem scenario_password_properties (hash : Bytes → Bytes)
    (aes : Bytes → BlockCipher) (hdig : ∀ x, (hash x).length = 32)
    (hgood : ∀ k, (aes k).Good) (rnd : Bytes) :
    ∃ s pw,
      Secret.new hash aes "K1" "work" rnd = Except.ok s ∧
      Vault.get_password hash aes
        { name := "work", secret := s, preferences := c1Prefs, default := true }
        "example.com" "K1" none none none = Except.ok pw ∧
      pw.length = 32 ∧
      ∀ ch ∈ pw.data, 33 ≤ ch.toNat ∧ ch.toNat < 125 := by
  have hcnew : Cipher.new hash aes "K1" "work" =
      Except.ok (Cipher.mk (aes (hash (strBytes "K1")))
        ((hash (strBytes "work")).take 16)) :=
    cipherNew_eq hash aes hdig "K1" "work"
  refine ⟨Secret.mk
      (Cipher.encrypt (Cipher.mk (aes (hash (strBytes "K1")))
        ((hash (strBytes "work")).take 16)) rnd) "work",
    Secret.to_ascii_range (hash rnd), ?_, ?_, ?_, ?_⟩
  · unfold Secret.new
    rw [hcnew]
    rfl
  · have hget : Secret.get hash aes
        (Secret.mk (Cipher.encrypt (Cipher.mk (aes (hash (strBytes "K1")))
          ((hash (strBytes "work")).take 16)) rnd) "work") "K1"
        { domain := "example.com", username := "alice",
          length := 16, version := 0 } =
        Except.ok (Secret.to_ascii_range (hash rnd)) := by
      rw [secret_get_eq hash aes _ "K1" _
        (Cipher.mk (aes (hash (strBytes "K1")))
          ((hash (strBytes "work")).take 16)) hcnew]
      rw [Cipher.decrypt_encrypt _ (hgood _) (cipherNew_iv_length hash hdig "work") rnd]
      rfl
    rw [get_password_default_eq hash aes _ "example.com" "K1"
      (Preference.mk "example.com" "alice" 16 0 true) (by rfl)]
    dsimp only
    rw [hget]
  · show (Secret.to_ascii_range (hash rnd)).length = 32
    unfold Secret.to_ascii_range
    simp [String.length, hdig]
  · intro ch hch
    have hch2 : ch ∈ (hash rnd).map (fun b => Char.ofNat (b % 92 + 33)) := hch
    obtain ⟨b, hb, rfl⟩ := List.mem_map.mp hch2
    rw [char_toNat_ofNat _ (by omega)]
    omega

/-- The C1 scenario evaluated at the concrete primitives (constant digest,
identity block permutation) and an all-zero 256-byte random secret,
mirroring the handler flow `Secret::new(key, name, SECRET_LENGTH)?` followed
by `get_password`. -/
def c1Password : Except VaultError String :=
  match Secret.new hash0 aes0 "K1" "work" (List.replicate 256 0) with
  | Except.ok s =>
    Vault.get_password hash0 aes0
      { name := "work", secret := s, preferences := c1Prefs, default := true }
      "example.com" "K1" none none none
  | Except.error e => Except.error (VaultError.SecretError e)

set_option maxRecDepth 20000 in
/-- C1 counterexample: the password returned in the scenario has 32
characters, not 16 — the preference length is never applied to the
derived string. -/
theorem scenario_password_not_16 :
    c1Password.map String.length = Except.ok 32 ∧
    c1Password.map String.length ≠ Except.ok 16 := by
  have h32 : c1Password.map String.length = Except.ok 32 := by rfl
  refine ⟨h32, ?_⟩
  intro hcontra
  rw [h32] at hcontra
  injection hcontra with h
  exact absurd h (by decide)

/-- C1 witness: the amended scenario theorem applied at the concrete
primitives and the all-zero random secret. -/
theorem scenario_password_properties_witness :
    ∃ s pw,
      Secret.new hash0 aes0 "K1" "work" (List.replicate 256 0) = Except.ok s ∧
      Vault.get_password hash0 aes0
        { name := "work", secret := s, preferences := c1Prefs, default := true }
        "example.com" "K1" none none none = Except.ok pw ∧
      pw.length = 32 ∧
      ∀ ch ∈ pw.data, 33 ≤ ch.toNat ∧ ch.toNat < 125 :=
  scenario_password_properties hash0 aes0 hash0_digest aes0_good
    (List.replicate 256 0)

/-- The identity key of a preference: the (domain, username) pair. -/
def prefKey (p : Preference) : String × String := (p.domain, p.username)

/-- Number of default-flagged preferences of a domain. -/
def defaultCount (ps : Preferences) (d : String) : Nat :=
  ps.countP (fun p => p.default && p.domain == d)

/-- The inductive invariant maintained by the two mutating entry points:
(domain, username) keys are unique, and each domain has at most one default
preference. -/
def PrefInv (ps : Preferences) : Prop :=
  (ps.map prefKey).Nodup ∧ ∀ d, defaultCount ps d ≤ 1

theorem prefInv_nil : PrefInv [] :=
  ⟨List.nodup_nil, fun d => by simp [defaultCount]⟩

theorem nodup_countP_le_one {A B : Type} [BEq B] [LawfulBEq B] (f : A → B)
    (l : List A) (hnodup : (l.map f).Nodup) (k : B) :
    l.countP (fun x => f x == k) ≤ 1 := by
  induction l with
  | nil => exact Nat.zero_le 1
  | cons a l ih =>
    rw [List.map_cons, List.nodup_cons] at hnodup
    rw [List.countP_cons]
    cases hk : (f a == k) with
    | false => simpa [hk] using ih hnodup.2
    | true =>
      have hfa : f a = k := eq_of_beq hk
      have hzero : l.countP (fun x => f x == k) = 0 := by
        apply List.countP_eq_zero.mpr
        intro x hx hcontra
        have hfx : f x = k := eq_of_beq hcontra
        exact hnodup.1 (by rw [hfa, ← hfx]; exact List.mem_map_of_mem f hx)
      simp [hk, hzero]

theorem countP_pair_le_one (ps : Preferences) (hnodup : (ps.map prefKey).Nodup)
    (a b : String) :
    ps.countP (fun q => q.domain == a && q.username == b) ≤ 1 :=
  nodup_countP_le_one prefKey ps hnodup (a, b)

theorem prefInv_add (ps : Preferences) (q : Preference) (h : PrefInv ps) :
    PrefInv (Preferences.applyOp ps (PrefOp.add q)) := by
  cases hdup : (ps.any fun p => p.domain == q.domain && p.username == q.username) with
  | true =>
    have happ : Preferences.applyOp ps (PrefOp.add q) = ps := by
      unfold Preferences.applyOp Preferences.add
      dsimp only
      rw [hdup]
      rfl
    rw [happ]
    exact h
  | false =>
    have happ : Preferences.applyOp ps (PrefOp.add q) =
        ps ++ [{ q with default := !(Preferences.has_default ps
          (fun p => p.domain == q.domain)) }] := by
      unfold Preferences.applyOp Preferences.add
      dsimp only
      rw [hdup]
      rfl
    rw [happ]
    constructor
    · rw [List.map_append, List.nodup_append]
      refine ⟨h.1, List.nodup_singleton _, ?_⟩
      intro a ha hb
      obtain ⟨r2, hr2, rfl⟩ := List.mem_map.mp hb
      rw [List.mem_singleton] at hr2
      subst hr2
      obtain ⟨r, hr, hkey⟩ := List.mem_map.mp ha
      have hkey2 : r.domain = q.domain ∧ r.username = q.username := by
        simpa [prefKey, Prod.ext_iff] using hkey
      exact List.any_eq_false.mp hdup r hr (by simp [hkey2.1, hkey2.2])
    · intro d
      unfold defaultCount
      rw [List.countP_append]
      by_cases hdom : q.domain = d
      · subst hdom
        cases hdef : Preferences.has_default ps (fun p => p.domain == q.domain) with
        | false =>
          have hdef2 : (ps.any fun p => p.default && (p.domain == q.domain)) = false :=
            hdef
          have hzero : List.countP (fun p => p.default && p.domain == q.domain) ps = 0 := by
            apply List.countP_eq_zero.mpr
            intro p hp
            have h3 := List.any_eq_false.mp hdef2 p hp
            simpa using h3
          have hsing : List.countP (fun p => p.default && p.domain == q.domain)
              [{ q with default := !false }] ≤ 1 :=
            List.countP_le_length _
          omega
        | true =>
          have hzero2 : List.countP (fun p => p.default && p.domain == q.domain)
              [{ q with default := !true }] = 0 := by
            simp
          have hcount := h.2 q.domain
          unfold defaultCount at hcount
          omega
      · have hzero2 : List.countP (fun p => p.default && p.domain == d)
            [{ q with default := !(Preferences.has_default ps
              (fun p => p.domain == q.domain)) }] = 0 := by
          simp [hdom]
        have hcount := h.2 d
        unfold defaultCount at hcount
        omega

theorem prefInv_set_default (ps : Preferences) (d0 u0 : String) (h : PrefInv ps) :
    PrefInv (Preferences.applyOp ps (PrefOp.set_default d0 u0)) := by
  cases hm : (ps.any fun p => p.domain == d0 && p.username == u0) with
  | false =>
    have happ : Preferences.applyOp ps (PrefOp.set_default d0 u0) = ps := by
      unfold Preferences.applyOp Preferences.set_default
      dsimp only
      rw [hm]
      rfl
    rw [happ]
    exact h
  | true =>
    have happ : Preferences.applyOp ps (PrefOp.set_default d0 u0) =
        ps.map (fun p : Preference =>
          if p.domain == d0 then { p with default := p.username == u0 } else p) := by
      unfold Preferences.applyOp Preferences.set_default
      dsimp only
      rw [hm]
      rfl
    rw [happ]
    constructor
    · rw [List.map_map]
      have hcomp : (prefKey ∘ fun p : Preference =>
          if p.domain == d0 then { p with default := p.username == u0 } else p) =
          prefKey := by
        funext p
        cases hp : (p.domain == d0) with
        | true => simp [Function.comp, hp, prefKey]
        | false => simp [Function.comp, hp]
      rw [hcomp]
      exact h.1
    · intro d
      unfold defaultCount
      rw [List.countP_map]
      by_cases hdd : d0 = d
      · subst hdd
        have hfun : ((fun p => p.default && p.domain == d0) ∘ fun p : Preference =>
            if p.domain == d0 then { p with default := p.username == u0 } else p) =
            (fun p => p.domain == d0 && p.username == u0) := by
          funext p
          cases hp : (p.domain == d0) with
          | true => simp [Function.comp, hp]
          | false => simp [Function.comp, hp]
        rw [hfun]
        exact countP_pair_le_one ps h.1 d0 u0
      · have hfun : ((fun p => p.default && p.domain == d) ∘ fun p : Preference =>
            if p.domain == d0 then { p with default := p.username == u0 } else p) =
            (fun p => p.default && p.domain == d) := by
          funext p
          cases hp : (p.domain == d0) with
          | true =>
            have hpd : p.domain = d0 := by simpa using hp
            have hnd : (p.domain == d) = false := by
              rw [hpd]
              exact beq_eq_false_iff_ne.mpr hdd
            simp [Function.comp, hp, hnd]
          | false => simp [Function.comp, hp]
        rw [hfun]
        have hcount := h.2 d
        unfold defaultCount at hcount
        exact hcount

theorem prefInv_applyOp (ps : Preferences) (op : PrefOp) (h : PrefInv ps) :
    PrefInv (Preferences.applyOp ps op) := by
  cases op with
  | add q => exact prefInv_add ps q h
  | set_default d0 u0 => exact prefInv_set_default ps d0 u0 h

theorem prefInv_foldl (ops : List PrefOp) :
    ∀ ps : Preferences, PrefInv ps →
      PrefInv (ops.foldl Preferences.applyOp ps) := by
  induction ops with
  | nil => intro ps h; exact h
  | cons op ops ih =>
    intro ps h
    exact ih _ (prefInv_applyOp ps op h)

theorem prefInv_run (ops : List PrefOp) : PrefInv (Preferences.run ops) :=
  prefInv_foldl ops [] prefInv_nil

/-- C4: over every sequence of `Preferences::add` / `Preferences::set_default`
calls from the empty collection, each domain has at most one default
preference; and adding a preference for a domain not yet present always
succeeds and stores it with the default flag set. -/
theorem preferences_default_invariant (ops : List PrefOp) (d : String)
    (ps : Preferences) (p : Preference) :
    defaultCount (Preferences.run ops) d ≤ 1 ∧
    ((ps.any fun q => q.domain == p.domain) = false →
      Preferences.add ps p = Except.ok (ps ++ [{ p with default := true }])) := by
  constructor
  · exact (prefInv_run ops).2 d
  · intro hnew
    unfold Preferences.add
    have h1 : (ps.any fun q => q.domain == p.domain && q.username == p.username) = false := by
      rw [List.any_eq_false]
      intro q hq hand
      have hand2 : (q.domain == p.domain) = true ∧ (q.username == p.username) = true := by
        simpa using hand
      exact List.any_eq_false.mp hnew q hq hand2.1
    have h2 : Preferences.has_default ps (fun q => q.domain == p.domain) = false := by
      unfold Preferences.has_default
      rw [List.any_eq_false]
      intro q hq hand
      have hand2 : (q.default = true) ∧ (q.domain == p.domain) = true := by
        simpa using hand
      exact List.any_eq_false.mp hnew q hq hand2.2
    rw [h1]
    simp only [h2]
    rfl

/-- C4 witness: concrete mutation sequence exercising both entry points, and
the first-preference-of-a-new-domain property on the empty collection. -/
theorem preferences_default_invariant_witness :
    defaultCount (Preferences.run
      [PrefOp.add (Preference.new "a" "u1" 8),
       PrefOp.add (Preference.new "a" "u2" 8),
       PrefOp.set_default "a" "u2"]) "a" ≤ 1 ∧
    Preferences.add [] (Preference.new "a" "u1" 8) =
      Except.ok ([] ++ [{ Preference.new "a" "u1" 8 with default := true }]) :=
  have h := preferences_default_invariant
    [PrefOp.add (Preference.new "a" "u1" 8),
     PrefOp.add (Preference.new "a" "u2" 8),
     PrefOp.set_default "a" "u2"] "a" [] (Preference.new "a" "u1" 8)
  ⟨h.1, h.2 (by rfl)⟩

/-- C7: `Preferences::add` fails with `PreferenceExists` exactly when the
(domain, username) pair is already present, failure leaves the collection
unchanged, and success appends the preference with its default flag
overridden to true iff the domain has no default preference yet. -/
theorem preferences_add_contract (ps : Preferences) (q : Preference) :
    (Preferences.add ps q = Except.error PreferenceError.PreferenceExists ↔
      (ps.any fun p => p.domain == q.domain && p.username == q.username) = true) ∧
    ((ps.any fun p => p.domain == q.domain && p.username == q.username) = true →
      Preferences.applyOp ps (PrefOp.add q) = ps) ∧
    ((ps.any fun p => p.domain == q.domain && p.username == q.username) = false →
      ∃ q2, Preferences.add ps q = Except.ok (ps ++ [q2]) ∧
        q2.domain = q.domain ∧ q2.username = q.username ∧
        q2.length = q.length ∧ q2.version = q.version ∧
        (q2.default = true ↔ ¬∃ p ∈ ps, p.default = true ∧ p.domain = q.domain)) := by
  refine ⟨⟨?_, ?_⟩, ?_, ?_⟩
  · intro herr
    cases hdup : (ps.any fun p => p.domain == q.domain && p.username == q.username) with
    | true => rfl
    | false =>
      unfold Preferences.add at herr
      rw [hdup] at herr
      simp at herr
  · intro hdup
    unfold Preferences.add
    rw [if_pos hdup]
  · intro hdup
    unfold Preferences.applyOp Preferences.add
    dsimp only
    rw [hdup]
    rfl
  · intro hnew
    refine ⟨{ q with default := !(Preferences.has_default ps
        (fun p => p.domain == q.domain)) }, ?_, rfl, rfl, rfl, rfl, ?_⟩
    · unfold Preferences.add
      rw [hnew]
      rfl
    · constructor
      · intro hbang hex
        obtain ⟨p, hp, hdef, hdom⟩ := hex
        have hfalse : Preferences.has_default ps
            (fun p => p.domain == q.domain) = false := by
          cases hX : Preferences.has_default ps (fun p => p.domain == q.domain) with
          | false => rfl
          | true =>
            rw [hX] at hbang
            simp at hbang
        have hfalse2 : (ps.any fun p => p.default && (p.domain == q.domain)) = false :=
          hfalse
        have h3 := List.any_eq_false.mp hfalse2 p hp
        exact h3 (by simp [hdef, hdom])
      · intro hnoex
        cases hX : Preferences.has_default ps (fun p => p.domain == q.domain) with
        | false => rfl
        | true =>
          exfalso
          apply hnoex
          have hX2 : (ps.any fun p => p.default && (p.domain == q.domain)) = true := hX
          obtain ⟨p, hp, hcond⟩ := List.any_eq_true.mp hX2
          have hcond2 : p.default = true ∧ p.domain = q.domain := by
            simpa using hcond
          exact ⟨p, hp, hcond2.1, hcond2.2⟩

/-- Concrete collection for the C7 witness. -/
def ps7 : Preferences := [Preference.mk "d" "u" 8 0 true]

/-- C7 witness: duplicate (domain, username) rejected and collection kept. -/
theorem preferences_add_contract_witness :
    Preferences.add ps7 (Preference.new "d" "u" 10) =
      Except.error PreferenceError.PreferenceExists ∧
    Preferences.applyOp ps7 (PrefOp.add (Preference.new "d" "u" 10)) = ps7 :=
  have h := preferences_add_contract ps7 (Preference.new "d" "u" 10)
  ⟨h.1.mpr (by rfl), h.2.1 (by rfl)⟩

/-- The inductive invariant of the vault collection: the head (the first
vault ever added) is default, every later vault is not. -/
def VaultsInv {S : Type} (vs : List (Vault S)) : Prop :=
  (∀ v0, vs.head? = some v0 → v0.default = true) ∧
  ∀ w ∈ vs.tail, w.default = false

theorem vaultsInv_nil {S : Type} : VaultsInv ([] : List (Vault S)) :=
  ⟨fun _ h => by simp at h, fun _ hw => by simp at hw⟩

theorem vaultsInv_applyAdd {S : Type} (vs : List (Vault S)) (op : String × S)
    (h : VaultsInv vs) : VaultsInv (Vaults.applyAdd vs op) := by
  cases hdup : (vs.any fun v => v.name == op.1) with
  | true =>
    have happ : Vaults.applyAdd vs op = vs := by
      unfold Vaults.applyAdd Vaults.add
      rw [hdup]
      rfl
    rw [happ]
    exact h
  | false =>
    have happ : Vaults.applyAdd vs op =
        vs ++ [Vault.new op.1 op.2 vs.isEmpty] := by
      unfold Vaults.applyAdd Vaults.add
      rw [hdup]
      rfl
    rw [happ]
    cases vs with
    | nil =>
      constructor
      · intro v0 h0
        have h1 : Vault.new op.1 op.2 (List.isEmpty ([] : List (Vault S))) = v0 := by
          simpa using h0
        rw [← h1]
        rfl
      · intro w hw
        simp at hw
    | cons v rest =>
      obtain ⟨hv, hrest⟩ := h
      constructor
      · intro v0 h0
        have h1 : v = v0 := by simpa using h0
        subst h1
        exact hv v rfl
      · intro w hw
        simp only [List.cons_append, List.tail_cons] at hw
        rcases List.mem_append.mp hw with hw1 | hw2
        · exact hrest w hw1
        · rw [List.mem_singleton] at hw2
          subst hw2
          rfl

theorem vaultsInv_countP {S : Type} (vs : List (Vault S)) (h : VaultsInv vs) :
    vs.countP (fun w => w.default) ≤ 1 := by
  cases vs with
  | nil => exact Nat.zero_le 1
  | cons v rest =>
    have hrest : rest.countP (fun w => w.default) = 0 := by
      apply List.countP_eq_zero.mpr
      intro w hw
      simp [h.2 w hw]
    rw [List.countP_cons, hrest]
    cases hv : v.default <;> simp [hv]

theorem vaultsInv_foldl {S : Type} (ops : List (String × S)) :
    ∀ vs : List (Vault S), VaultsInv vs →
      VaultsInv (ops.foldl Vaults.applyAdd vs) := by
  induction ops with
  | nil => intro vs h; exact h
  | cons op ops ih =>
    intro vs h
    exact ih _ (vaultsInv_applyAdd vs op h)

theorem vaultsInv_run {S : Type} (ops : List (String × S)) :
    VaultsInv (Vaults.run ops) :=
  vaultsInv_foldl ops [] vaultsInv_nil

/-- C5: over every sequence of `Vaults::add` calls from the empty collection,
the first successfully added vault is default and every later one is not (so
at most one vault is ever default), and an add with a colliding name fails
with `VaultAlreadyExists` and leaves the collection unchanged. -/
theorem vaults_default_invariant {S : Type} (ops : List (String × S))
    (name : String) (secret : S) (vs : List (Vault S)) (v0 v : Vault S) :
    ((Vaults.run ops).countP (fun w => w.default) ≤ 1) ∧
    ((Vaults.run ops).head? = some v0 → v0.default = true) ∧
    (v ∈ (Vaults.run ops).tail → v.default = false) ∧
    ((vs.any fun w => w.name == name) = true →
      Vaults.add vs name secret = Except.error VaultError.VaultAlreadyExists ∧
      Vaults.applyAdd vs (name, secret) = vs) := by
  refine ⟨vaultsInv_countP _ (vaultsInv_run ops), (vaultsInv_run ops).1 v0,
    fun hv => (vaultsInv_run ops).2 v hv, ?_⟩
  intro hdup
  constructor
  · unfold Vaults.add
    rw [if_pos hdup]
  · unfold Vaults.applyAdd Vaults.add
    dsimp only
    rw [hdup]
    rfl

/-- C5 witness: two distinct adds then a colliding one, on `S := Unit`. -/
theorem vaults_default_invariant_witness :
    ((Vaults.run [("a", ()), ("b", ())]).countP (fun w => w.default) ≤ 1) ∧
    (Vault.new "a" () true).default = true ∧
    (Vault.new "b" () false).default = false ∧
    (Vaults.add [Vault.new "a" () true] "a" () =
        Except.error VaultError.VaultAlreadyExists ∧
      Vaults.applyAdd [Vault.new "a" () true] ("a", ()) =
        [Vault.new "a" () true]) :=
  have h := vaults_default_invariant [("a", ()), ("b", ())] "a" ()
    [Vault.new "a" () true] (Vault.new "a" () true) (Vault.new "b" () false)
  ⟨h.1, h.2.1 (by rfl), h.2.2.1 (by simp [Vaults.run, Vaults.applyAdd, Vaults.add, Vault.new]),
    h.2.2.2 (by rfl)⟩

theorem mapUnwrap_none {S : Type} (deser : String → Except Unit (Vault S))
    (cs : List String) (c : String) (er : Unit) (hc : c ∈ cs)
    (hf : deser c = Except.error er) : mapUnwrap deser cs = none := by
  induction cs with
  | nil => cases hc
  | cons a cs ih =>
    unfold mapUnwrap
    rcases List.mem_cons.mp hc with rfl | hmem
    · rw [hf]
    · cases hd : deser a with
      | error e => rfl
      | ok v =>
        dsimp only
        rw [ih hmem]
        rfl

/-- C6: when the storage root exists and some file content fails to
deserialize, `Vaults::new` panics (the `unwrap` inside the map), rather than
returning the failure as a typed error value in its `Result`. -/
theorem vaults_new_panics_on_bad_file {S : Type}
    (deser : String → Except Unit (Vault S)) (contents : List String)
    (c : String) (er : Unit) (hc : c ∈ contents)
    (hf : deser c = Except.error er) :
    Vaults.new deser true contents = LoadOutcome.panic ∧
    ∀ e : VaultError, Vaults.new deser true contents ≠ LoadOutcome.error e := by
  have h1 : Vaults.new deser true contents = LoadOutcome.panic := by
    unfold Vaults.new
    rw [if_neg (by simp), mapUnwrap_none deser contents c er hc hf]
  refine ⟨h1, fun e hcontra => ?_⟩
  rw [h1] at hcontra
  exact LoadOutcome.noConfusion hcontra

/-- A deserializer that rejects every content, standing in for
`serde_json::from_slice` on a malformed vault file. -/
def deser0 : String → Except Unit (Vault Unit) := fun _ => Except.error ()

/-- C6 witness: one unreadable file under an existing root. -/
theorem vaults_new_panics_witness :
    Vaults.new deser0 true [""] = LoadOutcome.panic ∧
    ∀ e : VaultError, Vaults.new deser0 true [""] ≠ LoadOutcome.error e :=
  vaults_new_panics_on_bad_file deser0 [""] "" () (List.mem_singleton.mpr rfl) rfl

end ZPass
